import Mathlib

/-!
Verification of the sticky-notes server (better-sqlite3 + express) against its
natural-language specification.  The definitions below are a shallow embedding
of the TypeScript source: SQL rows become structures, the database becomes
lists of rows, prepared statements become pure functions on that state, and the
dynamically composed notes query of `getNotes` (src/index.ts) is modelled at
the level of its condition list and positional parameter array, so that the
actual parameter-binding behaviour (including `params.slice(0, -2)` on the
count query) is reproduced faithfully.
-/

set_option maxHeartbeats 1000000
set_option maxRecDepth 4000

namespace StickyNotes

/-! ## Data model (schema from initDatabase in src/index.ts) -/

/-- A row of the `notes` table. -/
structure NoteRow where
  id : Int
  title : String
  content : String
  conversation_id : String
  color_hex : Option String
  section_id : Option Int
  created_at : Int
  updated_at : Int
deriving DecidableEq, Repr

/-- A row of the `tags` table. -/
structure TagRow where
  id : Int
  name : String
  parent_id : Option Int
deriving DecidableEq, Repr

/-- A row of the `note_tags` junction table. -/
structure NoteTagRow where
  note_id : Int
  tag_id : Int
deriving DecidableEq, Repr

/-- The database state: the three tables the claims are about. -/
structure DB where
  notes : List NoteRow
  tags : List TagRow
  note_tags : List NoteTagRow
deriving DecidableEq, Repr

/-! ## Small JavaScript/SQL helpers -/

/-- JavaScript `toLowerCase` restricted to ASCII (all identifiers involved are ASCII). -/
def lowerStr (s : String) : String := (s.data.map Char.toLower).asString

/-- JavaScript `toUpperCase` restricted to ASCII. -/
def upperStr (s : String) : String := (s.data.map Char.toUpper).asString

/-- Whitespace stripped by JavaScript `String.prototype.trim`. -/
def isJsSpace (c : Char) : Bool := c == ' ' || c == '\t' || c == '\n' || c == '\r'

/-- JavaScript `s.trim()`. -/
def jsTrim (s : String) : String :=
  (((s.data.dropWhile isJsSpace).reverse.dropWhile isJsSpace).reverse).asString

/-- Helper for `jsSplitSpace`: split a character list at every single space. -/
def splitSpAux : List Char → List Char → List (List Char)
  | [], acc => [acc.reverse]
  | c :: rest, acc =>
      if c == ' ' then acc.reverse :: splitSpAux rest []
      else splitSpAux rest (c :: acc)

/-- JavaScript `s.split(' ')` (splits at every single space, may produce empty pieces). -/
def jsSplitSpace (s : String) : List String := (splitSpAux s.data []).map List.asString

/-- The `typeof x === 'string' && x.trim()` guard used for the search,
conversation and color filters: a provided string counts only if its trimmed
form is non-empty, and the trimmed form is what the query uses. -/
def trimmedOpt : Option String → Option String
  | none => none
  | some s => let t := jsTrim s; if t == "" then none else some t

/-! ## The request as seen by the getNotes handler -/

/-- Shape of the `tags` query parameter after `qs` parsing: absent, a single
string, or an array of strings (other shapes are treated as an empty array by
the source). -/
inductive TagsParam where
  | absent
  | str (s : String)
  | arr (l : List String)
deriving DecidableEq, Repr

/-- The `tagArray` the source computes (guarded by JavaScript truthiness of the
raw parameter and by `tagArray.length > 0`): the list of tag names that
actually reaches the SQL condition.  No deduplication is performed. -/
def effectiveTags : TagsParam → List String
  | .absent => []
  | .str s => if s == "" then [] else [s]
  | .arr l => l

/-- The filter portion of a GET /api/notes request (everything except `sort`),
after numeric coercion of `page` and `limit`. -/
structure Filters where
  search : Option String := none
  page : Nat := 1
  limit : Nat := 10
  tags : TagsParam := .absent
  conversation : Option String := none
  color : Option String := none
  startDate : Option Int := none
deriving DecidableEq, Repr

/-- The whole GET /api/notes request. -/
structure NotesQuery extends Filters where
  sort : Option String := none
deriving DecidableEq, Repr

/-- `offset = (Number(page) - 1) * Number(limit)`. -/
def offsetOf (q : Filters) : Nat := (q.page - 1) * q.limit

/-! ## Positional SQL parameters and conditions -/

/-- A bound SQL parameter value: the source binds strings (tag names, trimmed
filter strings, LIKE patterns) and numbers (startDate, LIMIT, OFFSET). -/
inductive Value where
  | s (v : String)
  | n (v : Int)
deriving DecidableEq, Repr

/-- SQLite comparison of a TEXT-affinity column with a bound value: a numeric
value gets TEXT affinity applied (it is compared by its decimal rendering). -/
def Value.asText : Value → String
  | .s v => v
  | .n v => toString v

/-- The condition shapes `getNotes` can push onto its `conditions` array, in
source order of construction.  `tagExists k` is the EXISTS subquery with `k`
placeholders in its IN list. -/
inductive Cond where
  | tagExists (k : Nat)
  | convEq
  | colorEq
  | dateGe
  | searchLike
deriving DecidableEq, Repr

/-- Number of `?` placeholders a condition contributes. -/
def Cond.arity : Cond → Nat
  | .tagExists k => k
  | .convEq => 1
  | .colorEq => 1
  | .dateGe => 1
  | .searchLike => 2

/-- Strip the leading and trailing `%` of a LIKE pattern built as
`%term%` by the source. -/
def stripPct (p : String) : String :=
  let l := p.data
  let l := if l.head? == some '%' then l.tail else l
  let l := if l.getLast? == some '%' then l.dropLast else l
  l.asString

/-- Whether `pat` occurs at the start of `l`. -/
def prefixOfB : List Char → List Char → Bool
  | [], _ => true
  | _ :: _, [] => false
  | p :: ps, c :: cs => p == c && prefixOfB ps cs

/-- Whether `pat` occurs contiguously somewhere inside `l`. -/
def infixOfB (pat : List Char) : List Char → Bool
  | [] => pat.isEmpty
  | c :: cs => prefixOfB pat (c :: cs) || infixOfB pat cs

/-- Case-insensitive substring test: the semantics of `col LIKE '%term%'` for a
wildcard-free term (the only patterns the source constructs). -/
def likeCI (hay term : String) : Bool :=
  infixOfB ((lowerStr term).data) ((lowerStr hay).data)

/-- Evaluate one condition of the composed WHERE clause against a note, given
the list of parameter values bound to its placeholders.  The fall-through
cases return false; they only arise for parameter lists whose shapes the
source cannot produce. -/
def evalCond (db : DB) (note : NoteRow) : Cond → List Value → Bool
  | .tagExists _, vs =>
      db.note_tags.any fun r =>
        r.note_id == note.id &&
          db.tags.any fun t => t.id == r.tag_id && vs.any fun v => v.asText == t.name
  | .convEq, [v] => note.conversation_id == v.asText
  | .colorEq, [v] =>
      match note.color_hex with
      | some c => c == v.asText
      | none => false
  | .dateGe, [Value.n v] => v ≤ note.created_at
  | .searchLike, [p1, p2] =>
      likeCI note.title (stripPct p1.asText) || likeCI note.content (stripPct p2.asText)
  | _, _ => false

/-- Evaluate a conjunction of conditions against a positional parameter array:
each condition consumes as many leading values as it has placeholders, exactly
as SQLite assigns `?` placeholders to bound values in order. -/
def evalConds (db : DB) (note : NoteRow) : List Cond → List Value → Bool
  | [], _ => true
  | c :: cs, vs => evalCond db note c (vs.take c.arity) && evalConds db note cs (vs.drop c.arity)

/-! ## The condition/parameter builder of getNotes (src/index.ts, page query) -/

/-- The tag-filter push: the EXISTS condition with one placeholder per
effective tag name, and those names as its parameters. -/
def tagSeg (q : Filters) : List (Cond × List Value) :=
  let ts := effectiveTags q.tags
  if ts.isEmpty then [] else [(Cond.tagExists ts.length, ts.map Value.s)]

/-- The conversation equality push. -/
def convSeg (q : Filters) : List (Cond × List Value) :=
  match trimmedOpt q.conversation with
  | some c => [(Cond.convEq, [Value.s c])]
  | none => []

/-- The color equality push. -/
def colorSeg (q : Filters) : List (Cond × List Value) :=
  match trimmedOpt q.color with
  | some c => [(Cond.colorEq, [Value.s c])]
  | none => []

/-- The startDate push. -/
def dateSeg (q : Filters) : List (Cond × List Value) :=
  match q.startDate with
  | some d => [(Cond.dateGe, [Value.n d])]
  | none => []

/-- The search push: two `%term%` parameters for the two LIKE placeholders. -/
def searchSeg (q : Filters) : List (Cond × List Value) :=
  match trimmedOpt q.search with
  | some s => [(Cond.searchLike, [Value.s ("%" ++ s ++ "%"), Value.s ("%" ++ s ++ "%")])]
  | none => []

/-- The (condition, parameters) pairs pushed by the filter section of
`getNotes`, in source order: tags, conversation, color, startDate, search. -/
def pagePairs (q : Filters) : List (Cond × List Value) :=
  tagSeg q ++ convSeg q ++ colorSeg q ++ dateSeg q ++ searchSeg q

/-- The `conditions` array of the page query. -/
def pageConds (q : Filters) : List Cond := (pagePairs q).map Prod.fst

/-- The `params` array of the page query before LIMIT/OFFSET are pushed. -/
def baseParams (q : Filters) : List Value := ((pagePairs q).map Prod.snd).flatten

/-- Whether a note satisfies the WHERE clause of the page query (whose
placeholders are bound, correctly, to the leading `baseParams`). -/
def rowMatchesPage (db : DB) (q : Filters) (note : NoteRow) : Bool :=
  evalConds db note (pageConds q) (baseParams q)

/-! ## Sorting (ORDER BY clause) -/

/-- The allow-list of sortable fields. -/
def validSortFields : List String :=
  ["title", "updated_at", "created_at", "color_hex", "conversation_id"]

/-- The allow-list of sort directions. -/
def validSortDirections : List String := ["ASC", "DESC"]

/-- Parse the `sort` query parameter exactly as the source does: absent means
the default string `"updated_at DESC"`; split at spaces; an unknown or empty
field falls back to `updated_at`, an unknown or missing direction to `DESC`. -/
def parseSort (sort : Option String) : String × String :=
  let s := sort.getD "updated_at DESC"
  let parts := jsSplitSpace s
  let field := parts.getD 0 ""
  let direction := parts.getD 1 ""
  let sortField :=
    if (field != "") && validSortFields.contains (lowerStr field) then lowerStr field
    else "updated_at"
  let sortDirection :=
    if (direction != "") && validSortDirections.contains (upperStr direction) then upperStr direction
    else "DESC"
  (sortField, sortDirection)

/-- Three-way comparison of naturals (explicit so that it reduces in the
kernel). -/
def cmpNat (a b : Nat) : Ordering :=
  if a < b then .lt else if b < a then .gt else .eq

/-- Lexicographic comparison of character lists by code point: the BINARY
collation SQLite applies to the ASCII strings involved. -/
def cmpChars : List Char → List Char → Ordering
  | [], [] => .eq
  | [], _ :: _ => .lt
  | _ :: _, [] => .gt
  | a :: as, b :: bs =>
      match cmpNat a.toNat b.toNat with
      | .eq => cmpChars as bs
      | o => o

/-- BINARY-collation comparison of two strings. -/
def cmpStr (a b : String) : Ordering := cmpChars a.data b.data

/-- SQLite ordering of two nullable TEXT values (NULLs sort first ascending). -/
def cmpOptStr : Option String → Option String → Ordering
  | none, none => .eq
  | none, some _ => .lt
  | some _, none => .gt
  | some a, some b => cmpStr a b

/-- Compare two notes on a validated sort field. -/
def cmpField (field : String) (a b : NoteRow) : Ordering :=
  if field == "title" then cmpStr a.title b.title
  else if field == "created_at" then compare a.created_at b.created_at
  else if field == "color_hex" then cmpOptStr a.color_hex b.color_hex
  else if field == "conversation_id" then cmpStr a.conversation_id b.conversation_id
  else compare a.updated_at b.updated_at

/-- Boolean `ORDER BY field direction` comparison. -/
def noteLeB (field dir : String) (a b : NoteRow) : Bool :=
  let o := cmpField field a b
  let o' := if dir == "DESC" then o.swap else o
  !(o' == Ordering.gt)

/-- The ordering relation used for `ORDER BY`. -/
def noteLE (field dir : String) (a b : NoteRow) : Prop := noteLeB field dir a b = true

instance noteLEDecidable (field dir : String) : DecidableRel (noteLE field dir) :=
  fun a b => instDecidableEqBool (noteLeB field dir a b) true

/-- Execute the `ORDER BY` clause. -/
def sortNotes (field dir : String) (l : List NoteRow) : List NoteRow :=
  List.insertionSort (noteLE field dir) l

/-! ## The two-query protocol of getNotes -/

/-- Rows returned by the page SELECT: filter, order, then
`LIMIT ? OFFSET ?`. -/
def pageRows (db : DB) (q : Filters) (fd : String × String) : List NoteRow :=
  ((sortNotes fd.1 fd.2 (db.notes.filter (rowMatchesPage db q))).drop (offsetOf q)).take q.limit

/-- The `conditions` array at the time the count query runs: the source pushes
the tag EXISTS condition onto the same array a second time. -/
def countConds (q : Filters) : List Cond :=
  pageConds q ++
    (let ts := effectiveTags q.tags
     if ts.isEmpty then [] else [Cond.tagExists ts.length])

/-- `params.slice(0, -2)`. -/
def sliceDropLast2 (l : List Value) : List Value := l.take (l.length - 2)

/-- The values bound to the count query: the full mutated `params` array
(base filter values, then LIMIT and OFFSET, then the re-pushed tag names)
with its last two entries sliced off. -/
def countBoundParams (q : Filters) : List Value :=
  sliceDropLast2
    (baseParams q ++ [Value.n q.limit, Value.n (offsetOf q)] ++
      (let ts := effectiveTags q.tags
       if ts.isEmpty then [] else ts.map Value.s))

/-- `SELECT COUNT(DISTINCT notes.id) as total` under the count query's WHERE
clause and (mis)bound parameters. -/
def countTotal (db : DB) (q : Filters) : Nat :=
  (((db.notes.filter fun n => evalConds db n (countConds q) (countBoundParams q)).map
      (fun n => n.id)).dedup).length

/-- The batched tag-attachment query for one note id: names of the tags joined
through `note_tags`. -/
def noteTagNames (db : DB) (id : Int) : List String :=
  (db.note_tags.filter fun r => r.note_id == id).filterMap fun r =>
    (db.tags.find? fun t => t.id == r.tag_id).map (fun t => t.name)

/-- A note as serialized in the response: the row plus its attached tag
names. -/
structure NoteOut where
  note : NoteRow
  tags : List String
deriving DecidableEq, Repr

/-- The pagination envelope. -/
structure Pagination where
  total : Nat
  page : Nat
  limit : Nat
  totalPages : Nat
deriving DecidableEq, Repr

/-- The response body of GET /api/notes. -/
structure NotesResponse where
  notes : List NoteOut
  pagination : Pagination
deriving DecidableEq, Repr

/-- Which SQL statements the handler executed, in order. -/
inductive QueryKind where
  | pageSelect
  | countSelect
  | tagSelect
deriving DecidableEq, Repr

/-- Result of the getNotes transaction plus the trace of executed queries. -/
structure GetNotesOut where
  response : NotesResponse
  trace : List QueryKind
deriving DecidableEq, Repr

/-- `Math.ceil(total / limit)` for natural inputs with `limit ≥ 1`. -/
def ceilDiv (a b : Nat) : Nat := (a + b - 1) / b

/-- The body of the getNotes transaction, after the sort specification has
been resolved: run the page query; if it is empty, short-circuit with the
empty envelope; otherwise run the count query, attach tags, and assemble the
pagination metadata. -/
def getNotesCore (db : DB) (q : Filters) (fd : String × String) : GetNotesOut :=
  let rows := pageRows db q fd
  if rows.isEmpty then
    { response :=
        { notes := []
          pagination := { total := 0, page := q.page, limit := q.limit, totalPages := 0 } }
      trace := [QueryKind.pageSelect] }
  else
    let total := countTotal db q
    { response :=
        { notes := rows.map fun n => { note := n, tags := noteTagNames db n.id }
          pagination :=
            { total := total, page := q.page, limit := q.limit
              totalPages := ceilDiv total q.limit } }
      trace := [QueryKind.pageSelect, QueryKind.countSelect, QueryKind.tagSelect] }

/-- The GET /api/notes handler. -/
def getNotes (db : DB) (q : NotesQuery) : GetNotesOut :=
  getNotesCore db q.toFilters (parseSort q.sort)

/-! ## Spec-side filter predicate (the refinement target, from spec.md section 4.1) -/

/-- Whether a note is linked to a tag of the given name. -/
def noteHasTagNamed (db : DB) (note : NoteRow) (tagName : String) : Bool :=
  db.note_tags.any fun r =>
    r.note_id == note.id && db.tags.any fun t => t.id == r.tag_id && t.name == tagName

/-- The filter predicate as the specification words it: the note carries at
least one of the named tags (OR across tags), conjoined with the
conversation, color, startDate and search predicates; empty or omitted
filters impose no condition. -/
def specMatches (db : DB) (q : Filters) (note : NoteRow) : Bool :=
  (let ts := effectiveTags q.tags
   ts.isEmpty || ts.any fun t => noteHasTagNamed db note t) &&
  (match trimmedOpt q.conversation with
   | some c => note.conversation_id == c
   | none => true) &&
  (match trimmedOpt q.color with
   | some c =>
       match note.color_hex with
       | some h => h == c
       | none => false
   | none => true) &&
  (match q.startDate with
   | some d => d ≤ note.created_at
   | none => true) &&
  (match trimmedOpt q.search with
   | some s => likeCI note.title s || likeCI note.content s
   | none => true)

/-! ## Mutation operations -/

/-- `AUTOINCREMENT` id assignment for a new note row. -/
def nextNoteId (db : DB) : Int := (db.notes.map (fun n => n.id)).foldr max 0 + 1

/-- `AUTOINCREMENT` id assignment for a new tag row. -/
def nextTagId (db : DB) : Int := (db.tags.map (fun t => t.id)).foldr max 0 + 1

/-- `INSERT OR IGNORE INTO tags` followed by `SELECT id FROM tags WHERE name = ?`:
find the tag by exact name, creating it when absent. -/
def findOrCreateTag (db : DB) (name : String) : DB × Int :=
  match db.tags.find? (fun t => t.name == name) with
  | some t => (db, t.id)
  | none =>
      let nid := nextTagId db
      ({ db with tags := db.tags ++ [{ id := nid, name := name, parent_id := none }] }, nid)

/-- Link a list of tag names to a note id: for each name, find-or-create the
tag and insert a `note_tags` row (the loop body shared by POST and PUT). -/
def linkTags (db : DB) (noteId : Int) (tags : List String) : DB :=
  tags.foldl
    (fun s tn =>
      let res := findOrCreateTag s tn
      { res.1 with note_tags := res.1.note_tags ++ [{ note_id := noteId, tag_id := res.2 }] })
    db

/-- Responses of the REST note handlers that the claims discriminate. -/
inductive RestResp where
  | okNote (n : NoteRow) (tags : List String)
  | created (n : NoteRow) (tags : List String)
  | error (status : Nat) (msg : String)
deriving DecidableEq, Repr

/-- POST /api/notes: `conversation_id = 'default'` is a destructuring default,
applied only when the field is absent; `color_hex || null` and
`section_id || null` turn falsy values (empty string, zero) into NULL. -/
def postNote (db : DB) (title content : String) (tags : List String)
    (conversation_id : Option String) (color_hex : Option String)
    (section_id : Option Int) (now : Int) : RestResp × DB :=
  let conv := conversation_id.getD "default"
  let nid := nextNoteId db
  let row : NoteRow :=
    { id := nid, title := title, content := content, conversation_id := conv
      color_hex := match color_hex with
        | some c => if c == "" then none else some c
        | none => none
      section_id := match section_id with
        | some s => if s == 0 then none else some s
        | none => none
      created_at := now, updated_at := now }
  let db1 := { db with notes := db.notes ++ [row] }
  let db2 := linkTags db1 nid tags
  (RestResp.created row (noteTagNames db2 nid), db2)

/-- The UPDATE statement of PUT /api/notes/:id: replace title, content,
conversation_id and color_hex and bump updated_at on the matching row. -/
def putUpdateRow (id : Int) (title content conversation_id : String)
    (color_hex : Option String) (now : Int) (db : DB) : DB :=
  { db with notes := db.notes.map fun (n : NoteRow) =>
      if n.id == id then
        { n with title := title, content := content, conversation_id := conversation_id,
                 color_hex := color_hex, updated_at := now }
      else n }

/-- `DELETE FROM note_tags WHERE note_id = ?`. -/
def putClearTags (id : Int) (db : DB) : DB :=
  { db with note_tags := db.note_tags.filter fun r => !(r.note_id == id) }

/-- PUT /api/notes/:id (body fields assumed provided, as the claims exercise):
run the UPDATE, clear and re-create the note's tag links, then re-fetch the
note.  When the id matches no row the re-fetch yields `undefined` and the
subsequent property assignment throws, which the catch block turns into a
generic 500 response. -/
def restPutNote (db : DB) (id : Int) (title content conversation_id : String)
    (color_hex : Option String) (tags : List String) (now : Int) : RestResp × DB :=
  let db3 :=
    linkTags (putClearTags id (putUpdateRow id title content conversation_id color_hex now db))
      id tags
  match db3.notes.find? (fun n => n.id == id) with
  | none => (RestResp.error 500 "Failed to update note", db3)
  | some n => (RestResp.okNote n (noteTagNames db3 id), db3)

/-- The `updateNote` prepared statement: set content and bump `updated_at` for
the matching id, reporting the number of changed rows. -/
def updateNoteRun (db : DB) (id : Int) (content : String) (now : Int) : DB × Nat :=
  ({ db with notes := db.notes.map fun n =>
      if n.id == id then { n with content := content, updated_at := now } else n },
   (db.notes.filter fun n => n.id == id).length)

/-- Responses of the `update-note` MCP tool, one constructor per return site. -/
inductive ToolUpdateResp where
  | notFound (id : Int)
  | ok (id : Int)
deriving DecidableEq, Repr

/-- The `update-note` tool handler: run the update, and if `result.changes`
is zero answer with the distinct not-found error. -/
def toolUpdateNote (db : DB) (id : Int) (content : String) (now : Int) :
    ToolUpdateResp × DB :=
  let res := updateNoteRun db id content now
  if res.2 = 0 then (ToolUpdateResp.notFound id, res.1)
  else (ToolUpdateResp.ok id, res.1)

/-! ## Bulk color patch -/

/-- Responses of PATCH /api/notes/bulk/color. -/
inductive BulkResp where
  | badRequest
  | ok
  | serverError (e : String)
deriving DecidableEq, Repr

/-- One `updateStmt.run(color_hex, id)` inside the bulk loop.  The statement
execution may fail in the environment (busy database, etc.); the `oracle`
models that external failure possibility. -/
def updateNoteColorStmt (oracle : Int → Option String) (color : String) (now : Int)
    (db : DB) (id : Int) : Except String DB :=
  match oracle id with
  | some e => Except.error e
  | none =>
      Except.ok ({ db with notes := db.notes.map fun n =>
        if n.id == id then { n with color_hex := some color, updated_at := now } else n } : DB)

/-- `db.transaction(fn)()`: all writes of `fn` commit together, or the
transaction rolls back and rethrows (the caller then still holds the original
state). -/
def sqliteTransaction (body : DB → Except String DB) (db : DB) : Except String DB :=
  body db

/-- PATCH /api/notes/bulk/color: validate that `noteIds` is an array and
`color_hex` is truthy before anything else; then run every per-id color
update inside one transaction. -/
def bulkColorHandler (oracle : Int → Option String) (db : DB)
    (noteIds : Option (List Int)) (color_hex : Option String) (now : Int) :
    BulkResp × DB :=
  match noteIds, color_hex with
  | some ids, some c =>
      if c == "" then (BulkResp.badRequest, db)
      else
        match sqliteTransaction
            (fun s => ids.foldlM (fun acc i => updateNoteColorStmt oracle c now acc i) s) db with
        | Except.ok db' => (BulkResp.ok, db')
        | Except.error e => (BulkResp.serverError e, db)
  | _, _ => (BulkResp.badRequest, db)

/-- The failure-free statement environment. -/
def noFailOracle : Int → Option String := fun _ => none

/-- The per-note effect of one bulk color update. -/
def recolor (c : String) (now : Int) (n : NoteRow) : NoteRow :=
  { n with color_hex := some c, updated_at := now }

/-- The aggregate effect of a successful bulk color patch: every note whose
id is listed is recolored, every other note untouched. -/
def recolorAll (ids : List Int) (c : String) (now : Int) (s : DB) : DB :=
  { s with notes := s.notes.map fun n => if ids.contains n.id then recolor c now n else n }

/-! ## Delete with change events (delete handler of the event-emitting
index.ts variant, using the NotesWebSocketServer broadcast methods) -/

/-- The change events broadcast over the WebSocket server, in emission
order. -/
inductive Event where
  | note_deleted (n : NoteRow)
  | conversation_updated (conversation_id : String) (note_count : Nat)
  | tag_updated (name : String) (note_count : Nat)
deriving DecidableEq, Repr

/-- `SELECT * FROM notes WHERE id = ?`. -/
def getNoteById (db : DB) (id : Int) : Option NoteRow :=
  db.notes.find? fun n => n.id == id

/-- `SELECT COUNT(*) FROM notes WHERE conversation_id = ?`. -/
def getConversationNoteCount (db : DB) (conv : String) : Nat :=
  (db.notes.filter fun n => n.conversation_id == conv).length

/-- `SELECT COUNT(*) FROM note_tags JOIN tags ON tags.id = note_tags.tag_id
WHERE tags.name = ?`.  Tag ids are a primary key, so each junction row joins
at most one tag row and the count is a filter length. -/
def getTagNoteCount (db : DB) (name : String) : Nat :=
  (db.note_tags.filter fun r => db.tags.any fun t => t.id == r.tag_id && t.name == name).length

/-- `DELETE FROM notes WHERE id = ?` with the schema's ON DELETE CASCADE on
`note_tags`. -/
def deleteNoteRun (db : DB) (id : Int) : DB :=
  { db with notes := db.notes.filter fun n => !(n.id == id)
            note_tags := db.note_tags.filter fun r => !(r.note_id == id) }

/-- Responses of DELETE /api/notes/:id. -/
inductive DeleteResp where
  | ok
  | notFound404
deriving DecidableEq, Repr

/-- DELETE /api/notes/:id: read the note (404 when absent) and its tags, then
delete, then broadcast `note_deleted` with the prior note, a
`conversation_updated` with the post-delete conversation count, and one
`tag_updated` per prior tag with its post-delete count. -/
def deleteNoteHandler (db : DB) (id : Int) : DeleteResp × DB × List Event :=
  match getNoteById db id with
  | none => (DeleteResp.notFound404, db, [])
  | some note =>
      let tags := noteTagNames db id
      let db' := deleteNoteRun db id
      let evs :=
        Event.note_deleted note ::
        Event.conversation_updated note.conversation_id
          (getConversationNoteCount db' note.conversation_id) ::
        tags.map fun tn => Event.tag_updated tn (getTagNoteCount db' tn)
      (DeleteResp.ok, db', evs)

/-! ## Tag hierarchy (recursive CTE getTagHierarchy) -/

/-- Ancestor-chain length of a tag, computed with explicit fuel: `some d`
means the parent walk reaches a root (a tag with NULL parent) after `d`
steps within the fuel bound. -/
def depthF (tags : List TagRow) : Nat → TagRow → Option Nat
  | 0, _ => none
  | fuel + 1, t =>
      match t.parent_id with
      | none => some 0
      | some pid =>
          match tags.find? (fun p => p.id == pid) with
          | none => none
          | some pt => (depthF tags fuel pt).map (· + 1)

/-- Ancestor-chain length with the canonical fuel (the table size). -/
def tagDepth (tags : List TagRow) (t : TagRow) : Option Nat :=
  depthF tags tags.length t

/-- One level of the recursive CTE `tag_tree`: level 0 holds the root tags
(`parent_id IS NULL`); level n+1 holds the tags joined to a level-n row via
`t.parent_id = tt.id`.  Tag ids are a primary key, so the join matches at
most one level-n row per tag and the level is a plain filter. -/
def levelRows (tags : List TagRow) : Nat → List TagRow
  | 0 => tags.filter fun t => t.parent_id.isNone
  | n + 1 => tags.filter fun t => (levelRows tags n).any fun p => t.parent_id == some p.id

/-- Boolean ordering of the final `ORDER BY level, name`. -/
def levelNameLeB (a b : TagRow × Nat) : Bool :=
  a.2 < b.2 || (a.2 == b.2 && !(cmpStr a.1.name b.1.name == Ordering.gt))

/-- Ordering of the final `ORDER BY level, name`. -/
def levelNameLE (a b : TagRow × Nat) : Prop := levelNameLeB a b = true

instance levelNameLEDecidable : DecidableRel levelNameLE := fun a b =>
  instDecidableEqBool (levelNameLeB a b) true

/-- All rows the recursive CTE produces within `fuel` iterations, each
annotated with its level. -/
def hierarchyRows (tags : List TagRow) (fuel : Nat) : List (TagRow × Nat) :=
  (List.range fuel).flatMap fun m => (levelRows tags m).map fun t => (t, m)

/-- GET /api/tags/hierarchy: every CTE row ordered by (level, name).  On an
acyclic table the recursion is exhausted after `tags.length` iterations
(levels beyond that are empty — proved below), so that fuel realizes the
unbounded SQL recursion. -/
def tagHierarchy (tags : List TagRow) : List (TagRow × Nat) :=
  List.insertionSort levelNameLE (hierarchyRows tags tags.length)

/-- Decidable form of the tag-table hypotheses of the hierarchy claim: the
parent relation is acyclic and referentially intact, i.e. every tag's
ancestor walk reaches a root within `tags.length` steps. -/
def acyclicTags (tags : List TagRow) : Prop :=
  ∀ t ∈ tags, (tagDepth tags t).isSome = true

instance acyclicTagsDecidable (tags : List TagRow) : Decidable (acyclicTags tags) :=
  inferInstanceAs (Decidable (∀ t ∈ tags, (tagDepth tags t).isSome = true))

/-! ## Concrete fixtures for witnesses and counterexamples -/

/-- A note row fixture. -/
def mkNote (id : Int) (conv : String) (upd : Int) : NoteRow :=
  { id := id, title := "T", content := "C", conversation_id := conv
    color_hex := none, section_id := none, created_at := upd, updated_at := upd }

/-- One note tagged `a`: the failing input of the pagination-count bug. -/
def dbC1 : DB :=
  { notes := [mkNote 1 "conv1" 1]
    tags := [{ id := 1, name := "a", parent_id := none }]
    note_tags := [{ note_id := 1, tag_id := 1 }] }

/-- GET /api/notes?tags=a&tags=b (page 1, limit 10). -/
def qC1 : NotesQuery := { tags := TagsParam.arr ["a", "b"] }

/-- Three notes: N1 tagged `a`, N2 tagged `b`, N3 untagged (spec section 8). -/
def dbC3 : DB :=
  { notes := [mkNote 1 "c" 1, mkNote 2 "c" 2, mkNote 3 "c" 3]
    tags := [{ id := 1, name := "a", parent_id := none },
             { id := 2, name := "b", parent_id := none }]
    note_tags := [{ note_id := 1, tag_id := 1 }, { note_id := 2, tag_id := 2 }] }

/-- GET /api/notes?tags=a&tags=b over `dbC3`. -/
def qC3 : NotesQuery := { tags := TagsParam.arr ["a", "b"] }

/-- A small acyclic tag table: root `r`, children `x` and `y`, grandchild `z`. -/
def tagsC8 : List TagRow :=
  [{ id := 1, name := "r", parent_id := none },
   { id := 2, name := "x", parent_id := some 1 },
   { id := 3, name := "y", parent_id := some 1 },
   { id := 4, name := "z", parent_id := some 2 }]

/-- A note in conversation `c1` tagged `x`, plus an unrelated note. -/
def dbC6 : DB :=
  { notes := [mkNote 1 "c1" 1, mkNote 2 "c2" 2]
    tags := [{ id := 1, name := "x", parent_id := none }]
    note_tags := [{ note_id := 1, tag_id := 1 }] }

/-- The empty database. -/
def dbEmpty : DB := { notes := [], tags := [], note_tags := [] }

/-- Two plain notes, used by the bulk-color witness. -/
def dbC5 : DB :=
  { notes := [mkNote 1 "c" 1, mkNote 2 "c" 2], tags := [], note_tags := [] }

/-! ## Correspondence between the built WHERE clause and the spec predicate -/

/-- Peeling one correctly-sized parameter group off the bound value list. -/
theorem evalConds_cons_group (db : DB) (note : NoteRow) (c : Cond) (v : List Value)
    (cs : List Cond) (vs : List Value) (h : v.length = c.arity) :
    evalConds db note (c :: cs) (v ++ vs) =
      (evalCond db note c v && evalConds db note cs vs) := by
  simp only [evalConds]
  rw [← h, List.take_left, List.drop_left]

/-- When every condition's parameter group has placeholder-many values, the
positional binding evaluates group by group. -/
theorem evalConds_pairs (db : DB) (note : NoteRow) :
    ∀ (ps : List (Cond × List Value)), (∀ p ∈ ps, p.2.length = p.1.arity) →
      evalConds db note (ps.map Prod.fst) ((ps.map Prod.snd).flatten) =
        ps.all fun p => evalCond db note p.1 p.2 := by
  intro ps
  induction ps with
  | nil => intro _; simp [evalConds]
  | cons p rest ih =>
      intro h
      simp only [List.map_cons, List.flatten_cons]
      rw [evalConds_cons_group db note p.1 p.2 _ _ (h p (List.mem_cons_self _ _))]
      rw [ih fun x hx => h x (List.mem_cons_of_mem _ hx)]
      simp

/-- Every pushed condition gets exactly placeholder-many parameter values. -/
theorem pagePairs_wf (q : Filters) : ∀ p ∈ pagePairs q, p.2.length = p.1.arity := by
  intro p hp
  unfold pagePairs tagSeg convSeg colorSeg dateSeg searchSeg at hp
  simp only [List.mem_append] at hp
  rcases hp with (((h | h) | h) | h) | h <;>
    split at h <;>
    simp_all [Cond.arity]

/-- The EXISTS tag condition, over string parameters, tests membership of one
of the given names among the note's tags. -/
theorem evalCond_tagExists (db : DB) (note : NoteRow) (k : Nat) (ts : List String) :
    evalCond db note (Cond.tagExists k) (ts.map Value.s) =
      ts.any fun t => noteHasTagNamed db note t := by
  have hb : ∀ x y : Bool, (x = true ↔ y = true) → x = y := by decide
  apply hb
  simp only [evalCond, noteHasTagNamed, List.any_eq_true, Bool.and_eq_true, List.mem_map,
    Value.asText, beq_iff_eq]
  constructor
  · rintro ⟨r, hr, hid, t, ht, hti, v, ⟨s, hs, rfl⟩, hname⟩
    exact ⟨s, hs, r, hr, hid, t, ht, hti, hname.symm⟩
  · rintro ⟨s, hs, r, hr, hid, t, ht, hti, hname⟩
    exact ⟨r, hr, hid, t, ht, hti, Value.s s, ⟨s, hs, rfl⟩, hname.symm⟩

/-- Wrapping in percent signs and stripping them is the identity. -/
theorem stripPct_wrap (s : String) : stripPct ("%" ++ s ++ "%") = s := by
  have hdata : ("%" ++ s ++ "%").data = '%' :: (s.data ++ ['%']) := by
    simp [String.data_append]
  simp only [stripPct, hdata, List.head?, List.tail]
  simp only [List.getLast?_concat, List.dropLast_concat, beq_self_eq_true, if_true]
  rfl

/-- The page query's WHERE clause is exactly the specification's filter
predicate: tag OR-membership, conversation, color, startDate and search
conjoined. -/
theorem rowMatchesPage_eq_specMatches (db : DB) (q : Filters) (note : NoteRow) :
    rowMatchesPage db q note = specMatches db q note := by
  unfold rowMatchesPage pageConds baseParams
  rw [evalConds_pairs db note (pagePairs q) (pagePairs_wf q)]
  unfold pagePairs
  simp only [List.all_append]
  unfold specMatches
  have ht : (tagSeg q).all (fun p => evalCond db note p.1 p.2) =
      ((effectiveTags q.tags).isEmpty ||
        (effectiveTags q.tags).any fun t => noteHasTagNamed db note t) := by
    unfold tagSeg
    cases h : (effectiveTags q.tags).isEmpty
    · simp only [h, Bool.false_eq_true, if_false, List.all_cons, List.all_nil,
        Bool.and_true, Bool.false_or]
      exact evalCond_tagExists db note _ _
    · simp [h]
  have hc : (convSeg q).all (fun p => evalCond db note p.1 p.2) =
      (match trimmedOpt q.conversation with
       | some c => note.conversation_id == c
       | none => true) := by
    unfold convSeg
    cases h : trimmedOpt q.conversation <;> simp [h, evalCond, Value.asText]
  have hco : (colorSeg q).all (fun p => evalCond db note p.1 p.2) =
      (match trimmedOpt q.color with
       | some c => match note.color_hex with
         | some h => h == c
         | none => false
       | none => true) := by
    unfold colorSeg
    cases h : trimmedOpt q.color
    · simp [h]
    · cases hcol : note.color_hex <;> simp [h, hcol, evalCond, Value.asText]
  have hd : (dateSeg q).all (fun p => evalCond db note p.1 p.2) =
      (match q.startDate with
       | some d => decide (d ≤ note.created_at)
       | none => true) := by
    unfold dateSeg
    cases h : q.startDate <;> simp [h, evalCond]
  have hs : (searchSeg q).all (fun p => evalCond db note p.1 p.2) =
      (match trimmedOpt q.search with
       | some s => likeCI note.title s || likeCI note.content s
       | none => true) := by
    unfold searchSeg
    cases h : trimmedOpt q.search
    · simp [h]
    · simp [h, evalCond, Value.asText, stripPct_wrap]
  rw [ht, hc, hco, hd, hs]

/-- Functional form of the WHERE-clause correspondence. -/
theorem rowMatchesPage_funext (db : DB) (q : Filters) :
    rowMatchesPage db q = specMatches db q :=
  funext fun note => rowMatchesPage_eq_specMatches db q note

/-! ## C1: pagination total (code bug) -/

/-- C1: the claim states that whenever the returned page is non-empty the
reported `pagination.total` equals the number of notes matching the same
filters (and `totalPages = ceil(total/limit)`), in particular under a
non-empty tags filter.  The code violates this: on a database with exactly
one note tagged `a`, the request `tags=[a,b]` returns that note on the page
but reports `total = 0` and `totalPages = 0`, because the count query pushes
the tag EXISTS condition a second time and `params.slice(0, -2)` binds the
LIMIT/OFFSET values to its placeholders. -/
theorem c1_pagination_count_bug :
    (getNotes dbC1 qC1).response.notes.length = 1 ∧
    (getNotes dbC1 qC1).response.pagination.total = 0 ∧
    (getNotes dbC1 qC1).response.pagination.totalPages = 0 ∧
    (dbC1.notes.filter (specMatches dbC1 qC1.toFilters)).length = 1 := by
  decide

/-! ## C2: empty-page short-circuit -/

/-- C2: whenever the paged SELECT returns zero rows, the handler answers
exactly `{ notes: [], pagination: { total: 0, page, limit, totalPages: 0 } }`
(echoing the requested page and limit) and executes only the page SELECT —
neither the count query nor the tag-attachment query appears in the trace. -/
theorem c2_empty_page_short_circuit (db : DB) (q : NotesQuery)
    (h : pageRows db q.toFilters (parseSort q.sort) = []) :
    getNotes db q =
      { response :=
          { notes := []
            pagination := { total := 0, page := q.page, limit := q.limit, totalPages := 0 } }
        trace := [QueryKind.pageSelect] } := by
  show getNotesCore db q.toFilters (parseSort q.sort) = _
  unfold getNotesCore
  rw [h]
  rfl

/-- Witness for C2 at the empty database and the default request. -/
theorem c2_witness :
    getNotes dbEmpty {} =
      { response :=
          { notes := []
            pagination := { total := 0, page := 1, limit := 10, totalPages := 0 } }
        trace := [QueryKind.pageSelect] } :=
  c2_empty_page_short_circuit dbEmpty {} (by decide)

/-! ## C3: tag OR semantics (deduplication corrected) -/

/-- C3 counterexample: the claim asserts the tag list is deduplicated before
use; the handler in fact forwards the duplicated list into the EXISTS
condition and its parameters unchanged. -/
theorem c3_counterexample :
    pagePairs { tags := TagsParam.arr ["a", "a"] } =
      [(Cond.tagExists 2, [Value.s "a", Value.s "a"])] ∧
    effectiveTags (TagsParam.arr ["a", "a"]) ≠
      (effectiveTags (TagsParam.arr ["a", "a"])).dedup := by
  decide

/-! ## C4: sort validation and fallback -/

/-- C4: the sort field used always comes from the allow-list and the
direction from {ASC, DESC}; an unknown sort value such as
`"nonexistent_field"` makes the request behave exactly like the default
`updated_at DESC`, with no error. -/
theorem c4_sort_fallback :
    (∀ s : Option String,
        (parseSort s).1 ∈ validSortFields ∧ (parseSort s).2 ∈ validSortDirections) ∧
    (∀ (db : DB) (q : NotesQuery),
        getNotes db { q with sort := some "nonexistent_field" } =
          getNotes db { q with sort := none }) := by
  constructor
  · intro s
    constructor
    · have h : ∀ f : String,
          (if (f != "") && validSortFields.contains (lowerStr f) then lowerStr f
           else "updated_at") ∈ validSortFields := by
        intro f
        by_cases hc : ((f != "") && validSortFields.contains (lowerStr f)) = true
        · rw [if_pos hc]
          have := ((Bool.and_eq_true _ _).mp hc).2
          simpa using this
        · rw [if_neg hc]; decide
      exact h ((jsSplitSpace (s.getD "updated_at DESC")).getD 0 "")
    · have h : ∀ d : String,
          (if (d != "") && validSortDirections.contains (upperStr d) then upperStr d
           else "DESC") ∈ validSortDirections := by
        intro d
        by_cases hc : ((d != "") && validSortDirections.contains (upperStr d)) = true
        · rw [if_pos hc]
          have := ((Bool.and_eq_true _ _).mp hc).2
          simpa using this
        · rw [if_neg hc]; decide
      exact h ((jsSplitSpace (s.getD "updated_at DESC")).getD 1 "")
  · intro db q
    rfl

/-! ## C9: conversation_id at rest (corrected) -/

/-- C9 amended: a REST create that omits `conversation_id` stores the value
`"default"` (and the schema's NOT NULL constraint keeps the column non-null,
which the model reflects by typing it `String`). -/
theorem c9_create_defaults_conversation (db : DB) (title content : String)
    (tags : List String) (color : Option String) (sec : Option Int) (now : Int) :
    ∃ r ts, (postNote db title content tags none color sec now).1 = RestResp.created r ts ∧
      r.conversation_id = "default" :=
  ⟨_, _, rfl, rfl⟩

/-- C9 counterexample: the claim also asserts no operation can leave a note
with an empty conversation_id; a REST create carrying an explicit empty
string stores it verbatim (the JavaScript destructuring default only fires
when the field is absent). -/
theorem c9_counterexample :
    ((postNote dbEmpty "T" "C" [] (some "") none none 0).2.notes.map
       fun n => n.conversation_id) = [""] := by
  decide

/-! ## C5: bulk color patch -/

/-- The bulk update loop either succeeds with every listed id recolored, or
fails with the state untouched by the caller (rollback). -/
theorem bulk_fold_spec (oracle : Int → Option String) (c : String) (now : Int) :
    ∀ (ids : List Int) (s : DB),
      (ids.foldlM (fun acc i => updateNoteColorStmt oracle c now acc i) s =
        Except.ok (recolorAll ids c now s)) ∨
      (∃ e, ids.foldlM (fun acc i => updateNoteColorStmt oracle c now acc i) s =
        Except.error e) := by
  have hcomp : ∀ (i : Int) (rest : List Int) (s : DB),
      recolorAll rest c now (recolorAll [i] c now s) = recolorAll (i :: rest) c now s := by
    intro i rest s
    unfold recolorAll
    simp only [List.map_map]
    congr 1
    apply List.map_congr_left
    intro n _
    by_cases hip : n.id = i
    · by_cases hr : i ∈ rest
      · simp [Function.comp, recolor, hip, hr]
      · simp [Function.comp, recolor, hip, hr]
    · simp [Function.comp, recolor, hip]
  have hstep : ∀ (i : Int) (s : DB), oracle i = none →
      updateNoteColorStmt oracle c now s i = Except.ok (recolorAll [i] c now s) := by
    intro i s ho
    simp only [updateNoteColorStmt, ho, recolorAll]
    congr 2
    apply List.map_congr_left
    intro n _
    have hci : ([i].contains n.id) = (n.id == i) := by
      simp only [List.contains_cons, List.contains_nil, Bool.or_false]
    rw [hci]
    simp [recolor]
  intro ids
  induction ids with
  | nil =>
      intro s
      left
      have : recolorAll [] c now s = s := by
        unfold recolorAll
        have : s.notes.map (fun n => if ([] : List Int).contains n.id then recolor c now n else n)
            = s.notes := by
          simp
        rw [this]
      rw [this]
      rfl
  | cons i rest ih =>
      intro s
      cases ho : oracle i with
      | some e =>
          right
          refine ⟨e, ?_⟩
          rw [show ((i :: rest).foldlM (fun acc j => updateNoteColorStmt oracle c now acc j) s) =
                (updateNoteColorStmt oracle c now s i >>= fun s2 =>
                  rest.foldlM (fun acc j => updateNoteColorStmt oracle c now acc j) s2) from rfl]
          rw [show updateNoteColorStmt oracle c now s i = Except.error e by
            simp [updateNoteColorStmt, ho]]
          rfl
      | none =>
          rcases ih (recolorAll [i] c now s) with hok | ⟨e, herr⟩
          · left
            rw [show ((i :: rest).foldlM (fun acc j => updateNoteColorStmt oracle c now acc j) s) =
                  (updateNoteColorStmt oracle c now s i >>= fun s2 =>
                    rest.foldlM (fun acc j => updateNoteColorStmt oracle c now acc j) s2) from rfl]
            rw [hstep i s ho]
            show rest.foldlM (fun acc j => updateNoteColorStmt oracle c now acc j) _ = _
            rw [hok, hcomp]
          · right
            refine ⟨e, ?_⟩
            rw [show ((i :: rest).foldlM (fun acc j => updateNoteColorStmt oracle c now acc j) s) =
                  (updateNoteColorStmt oracle c now s i >>= fun s2 =>
                    rest.foldlM (fun acc j => updateNoteColorStmt oracle c now acc j) s2) from rfl]
            rw [hstep i s ho]
            exact herr

/-- C5: a bulk color request whose `noteIds` is not an array or whose
`color_hex` is missing fails with the 400 validation response and leaves the
store untouched; a valid request runs all updates in one transaction, so
either every listed note receives the new color (with `updated_at` bumped)
or a failure rolls everything back and the state is unchanged. -/
theorem c5_bulk_color_atomic (oracle : Int → Option String) (db : DB)
    (noteIds : Option (List Int)) (color_hex : Option String) (now : Int) :
    ((noteIds = none ∨ color_hex = none) →
        bulkColorHandler oracle db noteIds color_hex now = (BulkResp.badRequest, db)) ∧
    (∀ ids c, noteIds = some ids → color_hex = some c → c ≠ "" →
        (bulkColorHandler oracle db noteIds color_hex now =
          (BulkResp.ok, recolorAll ids c now db)) ∨
        (∃ e, bulkColorHandler oracle db noteIds color_hex now =
          (BulkResp.serverError e, db))) := by
  constructor
  · rintro (rfl | rfl)
    · rfl
    · cases noteIds <;> rfl
  · rintro ids c rfl rfl hc
    have hcb : (c == "") = false := by simpa using hc
    rcases bulk_fold_spec oracle c now ids db with hok | ⟨e, herr⟩
    · left
      simp [bulkColorHandler, hcb, sqliteTransaction, hok]
    · right
      exact ⟨e, by simp [bulkColorHandler, hcb, sqliteTransaction, herr]⟩

/-- Witness for C5: recoloring two concrete notes with a failure-free store. -/
theorem c5_witness :
    (bulkColorHandler noFailOracle dbC5 (some [1, 2]) (some "#112233") 7 =
      (BulkResp.ok, recolorAll [1, 2] "#112233" 7 dbC5)) ∨
    (∃ e, bulkColorHandler noFailOracle dbC5 (some [1, 2]) (some "#112233") 7 =
      (BulkResp.serverError e, dbC5)) :=
  (c5_bulk_color_atomic noFailOracle dbC5 (some [1, 2]) (some "#112233") 7).2
    [1, 2] "#112233" rfl rfl (by decide)

/-! ## C7: not-found handling on update -/

/-- The tag-linking loop never touches the notes table. -/
theorem linkTags_notes : ∀ (tags : List String) (db : DB) (id : Int),
    (linkTags db id tags).notes = db.notes := by
  intro tags
  induction tags with
  | nil => intro db id; rfl
  | cons t rest ih =>
      intro db id
      have hstep : linkTags db id (t :: rest) =
          linkTags
            (let res := findOrCreateTag db t
             { res.1 with note_tags := res.1.note_tags ++ [{ note_id := id, tag_id := res.2 }] })
            id rest := rfl
      rw [hstep, ih]
      unfold findOrCreateTag
      cases h : db.tags.find? fun tg => tg.name == t <;> simp [h]

/-- C7 corrected: the MCP `update-note` tool answers the distinct not-found
error exactly when the id matches zero rows, and succeeds when a row
matches; the REST PUT on an unmatched id, however, produces the generic
500 "Failed to update note" response rather than a NotFound-classed one. -/
theorem c7_update_not_found :
    (∀ (db : DB) (id : Int) (content : String) (now : Int),
        (∀ n ∈ db.notes, n.id ≠ id) →
        (toolUpdateNote db id content now).1 = ToolUpdateResp.notFound id) ∧
    (∀ (db : DB) (id : Int) (content : String) (now : Int) (n : NoteRow),
        n ∈ db.notes → n.id = id →
        (toolUpdateNote db id content now).1 = ToolUpdateResp.ok id) ∧
    (∀ (db : DB) (id : Int) (title content conv : String) (col : Option String)
        (tags : List String) (now : Int),
        (∀ n ∈ db.notes, n.id ≠ id) →
        (restPutNote db id title content conv col tags now).1 =
          RestResp.error 500 "Failed to update note") := by
  refine ⟨?_, ?_, ?_⟩
  · intro db id content now h
    have hz : (db.notes.filter fun n => n.id == id) = [] := by
      rw [List.filter_eq_nil_iff]
      intro n hn
      simpa using h n hn
    unfold toolUpdateNote updateNoteRun
    simp [hz]
  · intro db id content now n hn hid
    have hz : n ∈ db.notes.filter fun m => m.id == id := by
      rw [List.mem_filter]
      exact ⟨hn, by simpa using hid⟩
    have hpos : (db.notes.filter fun m => m.id == id).length ≠ 0 := by
      intro hzero
      rw [List.length_eq_zero] at hzero
      rw [hzero] at hz
      exact absurd hz (List.not_mem_nil n)
    unfold toolUpdateNote updateNoteRun
    simp [hpos]
  · intro db id title content conv col tags now h
    have hfind :
        (linkTags (putClearTags id (putUpdateRow id title content conv col now db))
            id tags).notes.find? (fun n => n.id == id) = none := by
      rw [linkTags_notes]
      show ((putUpdateRow id title content conv col now db).notes).find? _ = none
      rw [List.find?_eq_none]
      intro x hx
      unfold putUpdateRow at hx
      simp only at hx
      rcases List.mem_map.mp hx with ⟨n, hn, rfl⟩
      have hne : (n.id == id) = false := by simpa using h n hn
      simp [hne]
    unfold restPutNote
    dsimp only
    rw [hfind]

/-- Witness for C7: the tool path answers not-found on the empty database and
succeeds on an existing note. -/
theorem c7_witness :
    (toolUpdateNote dbEmpty 1 "x" 0).1 = ToolUpdateResp.notFound 1 ∧
    (toolUpdateNote dbC6 1 "x" 9).1 = ToolUpdateResp.ok 1 ∧
    (restPutNote dbEmpty 1 "T" "C" "conv" none [] 0).1 =
      RestResp.error 500 "Failed to update note" :=
  ⟨c7_update_not_found.1 dbEmpty 1 "x" 0 (by decide),
   c7_update_not_found.2.1 dbC6 1 "x" 9 (mkNote 1 "c1" 1) (by decide) rfl,
   c7_update_not_found.2.2 dbEmpty 1 "T" "C" "conv" none [] 0 (by decide)⟩

/-- C7 counterexample: the claim requires a NotFound-classed REST response on
an unmatched id; the handler instead emits the generic 500 failure used for
every error on this route. -/
theorem c7_counterexample :
    (restPutNote dbEmpty 1 "T" "C" "conv" none [] 0).1 =
      RestResp.error 500 "Failed to update note" := by
  decide

/-! ## C3: tag OR semantics, main theorem -/

/-- C3 amended: the returned page is exactly the take/drop window of the
matching notes — those satisfying the specification's filter predicate, whose
tag clause is OR across the (non-deduplicated) tag list — in the requested
order; consequently, under a non-empty tags filter every returned note
carries at least one of the named tags. -/
theorem c3_tag_or_semantics (db : DB) (q : NotesQuery) :
    ((getNotes db q).response.notes.map fun o => o.note) =
      ((sortNotes (parseSort q.sort).1 (parseSort q.sort).2
          (db.notes.filter (specMatches db q.toFilters))).drop
        (offsetOf q.toFilters)).take q.limit ∧
    (effectiveTags q.tags ≠ [] →
      ∀ o ∈ (getNotes db q).response.notes,
        ∃ t ∈ effectiveTags q.tags, noteHasTagNamed db o.note t = true) := by
  have hpage : pageRows db q.toFilters (parseSort q.sort) =
      ((sortNotes (parseSort q.sort).1 (parseSort q.sort).2
          (db.notes.filter (specMatches db q.toFilters))).drop
        (offsetOf q.toFilters)).take q.limit := by
    unfold pageRows
    rw [rowMatchesPage_funext]
  have hcore : ((getNotes db q).response.notes.map fun o => o.note) =
      pageRows db q.toFilters (parseSort q.sort) := by
    show ((getNotesCore db q.toFilters (parseSort q.sort)).response.notes.map fun o => o.note)
      = _
    unfold getNotesCore
    by_cases hr : (pageRows db q.toFilters (parseSort q.sort)).isEmpty
    · simp only [hr, if_true]
      exact (List.isEmpty_iff.mp hr).symm
    · simp only [hr, Bool.false_eq_true, if_false]
      simp only [List.map_map]
      have hco : ((fun o : NoteOut => o.note) ∘ fun n =>
          ({ note := n, tags := noteTagNames db n.id } : NoteOut)) = fun n => n := rfl
      rw [hco]
      simp
  constructor
  · exact hcore.trans hpage
  · intro hne o ho
    have hmem : o.note ∈ pageRows db q.toFilters (parseSort q.sort) := by
      rw [← hcore]
      exact List.mem_map.mpr ⟨o, ho, rfl⟩
    rw [hpage] at hmem
    have hmem2 := List.mem_of_mem_drop (List.mem_of_mem_take hmem)
    have hmem3 : o.note ∈ db.notes.filter (specMatches db q.toFilters) :=
      ((List.perm_insertionSort _ _).mem_iff).mp hmem2
    have hspec : specMatches db q.toFilters o.note = true :=
      (List.mem_filter.mp hmem3).2
    unfold specMatches at hspec
    simp only [Bool.and_eq_true] at hspec
    have htag := hspec.1.1.1.1
    have hemp : (effectiveTags q.tags).isEmpty = false := by
      cases hts : effectiveTags q.tags
      · exact absurd hts hne
      · simp [hts]
    rw [hemp, Bool.false_or] at htag
    exact List.any_eq_true.mp htag

/-- Witness for C3 on the spec's own three-note example: note N2 (tagged `b`)
is returned by `tags=[a,b]` and carries one of the requested tags. -/
theorem c3_witness :
    ∃ t ∈ effectiveTags qC3.tags, noteHasTagNamed dbC3 (mkNote 2 "c" 2) t = true :=
  (c3_tag_or_semantics dbC3 qC3).2 (by decide)
    { note := mkNote 2 "c" 2, tags := ["b"] } (by decide)

/-! ## C10: pages past the last page -/

/-- C10: for a filter matching `n ≥ 1` notes, any page whose offset reaches
`n` short-circuits through the empty-page branch: the response is the empty
envelope with `total = 0` and `totalPages = 0`, so the reported totals depend
on the requested page and under-report the true match count. -/
theorem c10_past_last_page (db : DB) (q : NotesQuery) (n : Nat)
    (hp : 1 ≤ q.page) (hl : 1 ≤ q.limit)
    (hn : (db.notes.filter (specMatches db q.toFilters)).length = n)
    (h1 : 1 ≤ n) (hoff : n ≤ (q.page - 1) * q.limit) :
    (getNotes db q).response =
      { notes := []
        pagination := { total := 0, page := q.page, limit := q.limit, totalPages := 0 } } := by
  have hrows : pageRows db q.toFilters (parseSort q.sort) = [] := by
    unfold pageRows offsetOf
    rw [rowMatchesPage_funext]
    have hlen : (sortNotes (parseSort q.sort).1 (parseSort q.sort).2
        (db.notes.filter (specMatches db q.toFilters))).length = n := by
      unfold sortNotes
      rw [(List.perm_insertionSort _ _).length_eq]
      exact hn
    rw [List.drop_eq_nil_of_le (le_trans (le_of_eq hlen) hoff)]
    exact List.take_nil
  show (getNotesCore db q.toFilters (parseSort q.sort)).response = _
  unfold getNotesCore
  rw [hrows]
  rfl

/-- Witness for C10: one matching note, page 2 of limit 10 reports total 0. -/
theorem c10_witness :
    (getNotes dbC1 { tags := TagsParam.arr ["a"], page := 2 }).response =
      { notes := []
        pagination := { total := 0, page := 2, limit := 10, totalPages := 0 } } :=
  c10_past_last_page dbC1 { tags := TagsParam.arr ["a"], page := 2 } 1
    (by decide) (by decide) (by decide) (by decide) (by decide)

/-! ## C6: delete reads before deleting and emits ordered events -/

/-- Splitting a filtered length by a second Boolean test. -/
theorem length_filter_split {α : Type} (l : List α) (p q : α → Bool) :
    (l.filter p).length =
      (l.filter fun a => p a && q a).length + (l.filter fun a => p a && !q a).length := by
  induction l with
  | nil => rfl
  | cons a rest ih =>
      cases hp : p a <;> cases hq : q a <;>
        simp [List.filter_cons, hp, hq, ih] <;> omega

/-- A nodup list filters to exactly the one element satisfying a predicate
that pins it down. -/
theorem filter_eq_singleton_of_unique {α : Type} (p : α → Bool) (r : α) :
    ∀ l : List α, l.Nodup → r ∈ l → p r = true → (∀ a ∈ l, p a = true → a = r) →
      l.filter p = [r] := by
  intro l
  induction l with
  | nil => intro _ hr; exact absurd hr (List.not_mem_nil r)
  | cons a rest ih =>
      intro hnd hr hp hu
      rw [List.nodup_cons] at hnd
      rcases List.mem_cons.mp hr with rfl | hr'
      · rw [List.filter_cons_of_pos hp]
        have hrest : rest.filter p = [] := by
          rw [List.filter_eq_nil_iff]
          intro x hx hpx
          rw [hu x (List.mem_cons_of_mem _ hx) hpx] at hx
          exact hnd.1 hx
        rw [hrest]
      · have hpa : p a = false := by
          cases hpa : p a
          · rfl
          · rw [hu a (List.mem_cons_self _ _) hpa] at hnd
            exact absurd hr' hnd.1
        rw [List.filter_cons_of_neg (by simp [hpa])]
        exact ih hnd.2 hr' hp fun x hx hpx => hu x (List.mem_cons_of_mem _ hx) hpx

/-- Deleting a note decrements its conversation's note count by one. -/
theorem getConversationNoteCount_delete (db : DB) (note : NoteRow)
    (hids : (db.notes.map fun n => n.id).Nodup) (hmem : note ∈ db.notes) :
    getConversationNoteCount (deleteNoteRun db note.id) note.conversation_id =
      getConversationNoteCount db note.conversation_id - 1 := by
  unfold getConversationNoteCount deleteNoteRun
  dsimp only
  rw [List.filter_filter]
  have hsplit := length_filter_split db.notes
    (fun n => n.conversation_id == note.conversation_id) (fun n => n.id == note.id)
  have hone : (db.notes.filter fun n =>
      (n.conversation_id == note.conversation_id) && (n.id == note.id)).length = 1 := by
    rw [filter_eq_singleton_of_unique _ note db.notes (hids.of_map) hmem (by simp)
      (fun a ha hpa => ?_)]
    · rfl
    · have h2 : a.id = note.id := by
        have := (Bool.and_eq_true _ _).mp hpa
        simpa using this.2
      exact List.inj_on_of_nodup_map hids ha hmem h2
  omega

/-- Decomposition of membership in a note's attached tag names. -/
theorem noteTagNames_mem (db : DB) (id : Int) (tn : String)
    (h : tn ∈ noteTagNames db id) :
    ∃ r ∈ db.note_tags, (r.note_id == id) = true ∧
      ∃ t ∈ db.tags, (t.id == r.tag_id) = true ∧ t.name = tn := by
  unfold noteTagNames at h
  rcases List.mem_filterMap.mp h with ⟨r, hr, hmap⟩
  rcases Option.map_eq_some'.mp hmap with ⟨t, hfind, hname⟩
  have hrf := List.mem_filter.mp hr
  refine ⟨r, hrf.1, hrf.2, t, List.mem_of_find?_eq_some hfind, ?_, hname⟩
  have hp := List.find?_some hfind
  simpa using hp

/-- Deleting a note decrements the note count of each of its tags by one. -/
theorem getTagNoteCount_delete (db : DB) (id : Int) (tn : String)
    (htnames : (db.tags.map fun t => t.name).Nodup)
    (hnt : db.note_tags.Nodup)
    (hmem : tn ∈ noteTagNames db id) :
    getTagNoteCount (deleteNoteRun db id) tn = getTagNoteCount db tn - 1 := by
  unfold getTagNoteCount deleteNoteRun
  dsimp only
  rw [List.filter_filter]
  have hsplit := length_filter_split db.note_tags
    (fun r => db.tags.any fun t => t.id == r.tag_id && t.name == tn)
    (fun r => r.note_id == id)
  rcases noteTagNames_mem db id tn hmem with ⟨r0, hr0, hr0id, t0, ht0, ht0id, ht0name⟩
  have hone : (db.note_tags.filter fun r =>
      (db.tags.any fun t => t.id == r.tag_id && t.name == tn) && (r.note_id == id)).length
        = 1 := by
    rw [filter_eq_singleton_of_unique _ r0 db.note_tags hnt hr0 ?hp ?hu]
    · rfl
    case hp =>
      rw [Bool.and_eq_true, List.any_eq_true]
      exact ⟨⟨t0, ht0, by rw [Bool.and_eq_true]; exact ⟨ht0id, by simpa using ht0name⟩⟩, hr0id⟩
    case hu =>
      intro a ha hpa
      rw [Bool.and_eq_true, List.any_eq_true] at hpa
      rcases hpa with ⟨⟨t1, ht1, h1⟩, haid⟩
      rw [Bool.and_eq_true] at h1
      have h1id : t1.id = a.tag_id := by simpa using h1.1
      have h1name : t1.name = tn := by simpa using h1.2
      have heqt : t1 = t0 :=
        List.inj_on_of_nodup_map htnames ht1 ht0 (h1name.trans ht0name.symm)
      have haid' : a.note_id = id := by simpa using haid
      have hr0id' : r0.note_id = id := by simpa using hr0id
      have ht0id' : t0.id = r0.tag_id := by simpa using ht0id
      cases a
      cases r0
      simp_all
  omega

/-- C6: the delete handler reads the note and its tags before deleting, then
emits, in order, `note_deleted` with the full prior note, a
`conversation_updated` carrying the post-delete count of that conversation
(one less than before), and one `tag_updated` per previously attached tag
carrying its post-delete count (one less than before). -/
theorem c6_delete_event_order (db : DB) (id : Int) (note : NoteRow)
    (hids : (db.notes.map fun n => n.id).Nodup)
    (htnames : (db.tags.map fun t => t.name).Nodup)
    (hnt : db.note_tags.Nodup)
    (hfind : getNoteById db id = some note) :
    (deleteNoteHandler db id).2.2 =
      Event.note_deleted note ::
      Event.conversation_updated note.conversation_id
        (getConversationNoteCount db note.conversation_id - 1) ::
      ((noteTagNames db id).map fun tn =>
        Event.tag_updated tn (getTagNoteCount db tn - 1)) := by
  have hid : note.id = id := by
    have := List.find?_some hfind
    simpa using this
  have hmem : note ∈ db.notes := List.mem_of_find?_eq_some hfind
  subst hid
  unfold deleteNoteHandler
  rw [hfind]
  dsimp only
  rw [getConversationNoteCount_delete db note hids hmem]
  have hmap : ((noteTagNames db note.id).map fun tn =>
      Event.tag_updated tn (getTagNoteCount (deleteNoteRun db note.id) tn)) =
      ((noteTagNames db note.id).map fun tn =>
        Event.tag_updated tn (getTagNoteCount db tn - 1)) := by
    apply List.map_congr_left
    intro tn htn
    rw [getTagNoteCount_delete db note.id tn htnames hnt htn]
  rw [hmap]

/-- Witness for C6 on the concrete two-note database: deleting note 1 emits
the prior note, then conversation count 0, then tag count 0. -/
theorem c6_witness :
    (deleteNoteHandler dbC6 1).2.2 =
      [Event.note_deleted (mkNote 1 "c1" 1), Event.conversation_updated "c1" 0,
       Event.tag_updated "x" 0] := by
  have h := c6_delete_event_order dbC6 1 (mkNote 1 "c1" 1) (by decide) (by decide)
    (by decide) (by decide)
  exact h.trans (by decide)

/-! ## C8: tag hierarchy — ordering lemmas -/

theorem cmpNat_eq_iff (a b : Nat) : cmpNat a b = Ordering.eq ↔ a = b := by
  unfold cmpNat
  split_ifs with h1 h2
  · exact iff_of_false (by decide) (by omega)
  · exact iff_of_false (by decide) (by omega)
  · exact iff_of_true rfl (by omega)

theorem cmpNat_lt_iff (a b : Nat) : cmpNat a b = Ordering.lt ↔ a < b := by
  unfold cmpNat
  split_ifs with h1 h2
  · exact iff_of_true rfl h1
  · exact iff_of_false (by decide) h1
  · exact iff_of_false (by decide) h1

theorem cmpNat_gt_iff (a b : Nat) : cmpNat a b = Ordering.gt ↔ b < a := by
  unfold cmpNat
  split_ifs with h1 h2
  · exact iff_of_false (by decide) (by omega)
  · exact iff_of_true rfl h2
  · exact iff_of_false (by decide) (by omega)

theorem cmpNat_swap (a b : Nat) : cmpNat b a = (cmpNat a b).swap := by
  unfold cmpNat
  split_ifs with h1 h2 h3 h4 <;> first | rfl | omega

theorem cmpChars_swap : ∀ a b : List Char, cmpChars b a = (cmpChars a b).swap := by
  intro a
  induction a with
  | nil => intro b; cases b <;> rfl
  | cons x xs ih =>
      intro b
      cases b with
      | nil => rfl
      | cons y ys =>
          cases h : cmpNat x.toNat y.toNat with
          | lt =>
              have h' : cmpNat y.toNat x.toNat = Ordering.gt := by
                rw [cmpNat_swap, h]; rfl
              simp [cmpChars, h, h']; rfl
          | eq =>
              have h' : cmpNat y.toNat x.toNat = Ordering.eq := by
                rw [cmpNat_swap, h]; rfl
              simp [cmpChars, h, h']
              exact ih ys
          | gt =>
              have h' : cmpNat y.toNat x.toNat = Ordering.lt := by
                rw [cmpNat_swap, h]; rfl
              simp [cmpChars, h, h']; rfl

theorem cmpChars_le_trans :
    ∀ a b c : List Char, cmpChars a b ≠ Ordering.gt → cmpChars b c ≠ Ordering.gt →
      cmpChars a c ≠ Ordering.gt := by
  intro a
  induction a with
  | nil =>
      intro b c _ _
      cases c <;> simp [cmpChars]
  | cons x xs ih =>
      intro b c h1 h2
      cases b with
      | nil => simp [cmpChars] at h1
      | cons y ys =>
          cases c with
          | nil => simp [cmpChars] at h2
          | cons z zs =>
              simp only [cmpChars] at h1 h2 ⊢
              cases hxy : cmpNat x.toNat y.toNat with
              | gt => rw [hxy] at h1; exact absurd rfl h1
              | lt =>
                  have hxyn : x.toNat < y.toNat := (cmpNat_lt_iff _ _).mp hxy
                  cases hyz : cmpNat y.toNat z.toNat with
                  | gt => rw [hyz] at h2; exact absurd rfl h2
                  | lt =>
                      have hyzn : y.toNat < z.toNat := (cmpNat_lt_iff _ _).mp hyz
                      rw [(cmpNat_lt_iff x.toNat z.toNat).mpr (by omega)]
                      simp
                  | eq =>
                      have hyzn : y.toNat = z.toNat := (cmpNat_eq_iff _ _).mp hyz
                      rw [(cmpNat_lt_iff x.toNat z.toNat).mpr (by omega)]
                      simp
              | eq =>
                  have hxyn : x.toNat = y.toNat := (cmpNat_eq_iff _ _).mp hxy
                  rw [hxy] at h1
                  cases hyz : cmpNat y.toNat z.toNat with
                  | gt => rw [hyz] at h2; exact absurd rfl h2
                  | lt =>
                      have hyzn : y.toNat < z.toNat := (cmpNat_lt_iff _ _).mp hyz
                      rw [(cmpNat_lt_iff x.toNat z.toNat).mpr (by omega)]
                      simp
                  | eq =>
                      have hyzn : y.toNat = z.toNat := (cmpNat_eq_iff _ _).mp hyz
                      rw [hyz] at h2
                      rw [(cmpNat_eq_iff x.toNat z.toNat).mpr (by omega)]
                      exact ih ys zs h1 h2

/-- Propositional reading of the (level, name) ordering. -/
theorem levelNameLE_iff (a b : TagRow × Nat) :
    levelNameLE a b ↔
      (a.2 < b.2 ∨ (a.2 = b.2 ∧ cmpStr a.1.name b.1.name ≠ Ordering.gt)) := by
  unfold levelNameLE levelNameLeB
  rw [Bool.or_eq_true, Bool.and_eq_true]
  constructor
  · rintro (h | ⟨h1, h2⟩)
    · exact Or.inl (by simpa using h)
    · refine Or.inr ⟨by simpa using h1, ?_⟩
      intro hg
      rw [hg] at h2
      exact Bool.noConfusion h2
  · rintro (h | ⟨h1, h2⟩)
    · exact Or.inl (by simpa using h)
    · refine Or.inr ⟨by simpa using h1, ?_⟩
      cases hg : cmpStr a.1.name b.1.name
      · decide
      · decide
      · exact absurd hg h2

instance levelNameLE_isTotal : IsTotal (TagRow × Nat) levelNameLE := by
  constructor
  intro a b
  rw [levelNameLE_iff, levelNameLE_iff]
  rcases Nat.lt_trichotomy a.2 b.2 with h | h | h
  · exact Or.inl (Or.inl h)
  · cases hg : cmpStr a.1.name b.1.name with
    | gt =>
        refine Or.inr (Or.inr ⟨h.symm, ?_⟩)
        unfold cmpStr at hg ⊢
        rw [cmpChars_swap, hg]
        decide
    | lt => exact Or.inl (Or.inr ⟨h, by decide⟩)
    | eq => exact Or.inl (Or.inr ⟨h, by decide⟩)
  · exact Or.inr (Or.inl h)

instance levelNameLE_isTrans : IsTrans (TagRow × Nat) levelNameLE := by
  constructor
  intro a b c hab hbc
  rw [levelNameLE_iff] at hab hbc ⊢
  rcases hab with h1 | ⟨h1, hn1⟩ <;> rcases hbc with h2 | ⟨h2, hn2⟩
  · exact Or.inl (by omega)
  · exact Or.inl (by omega)
  · exact Or.inl (by omega)
  · exact Or.inr ⟨by omega, cmpChars_le_trans _ _ _ hn1 hn2⟩

/-! ## C8: tag hierarchy — depth and level lemmas -/

/-- Unfolding the ancestor walk at a root tag. -/
theorem depthF_succ_root (tags : List TagRow) (f : Nat) (t : TagRow)
    (h : t.parent_id = none) : depthF tags (f + 1) t = some 0 := by
  rw [show depthF tags (f + 1) t =
      (match t.parent_id with
       | none => some 0
       | some pid =>
         match tags.find? (fun p => p.id == pid) with
         | none => none
         | some pt => (depthF tags f pt).map (· + 1)) from rfl, h]

/-- Unfolding the ancestor walk at a broken parent reference. -/
theorem depthF_succ_broken (tags : List TagRow) (f : Nat) (t : TagRow) (pid : Int)
    (h : t.parent_id = some pid) (hf : tags.find? (fun p => p.id == pid) = none) :
    depthF tags (f + 1) t = none := by
  rw [show depthF tags (f + 1) t =
      (match t.parent_id with
       | none => some 0
       | some pid =>
         match tags.find? (fun p => p.id == pid) with
         | none => none
         | some pt => (depthF tags f pt).map (· + 1)) from rfl, h]
  show (match tags.find? (fun p => p.id == pid) with
    | none => (none : Option Nat)
    | some pt => (depthF tags f pt).map (· + 1)) = none
  rw [hf]

/-- Unfolding the ancestor walk through a resolved parent. -/
theorem depthF_succ_parent (tags : List TagRow) (f : Nat) (t : TagRow) (pid : Int)
    (pt : TagRow) (h : t.parent_id = some pid)
    (hf : tags.find? (fun p => p.id == pid) = some pt) :
    depthF tags (f + 1) t = (depthF tags f pt).map (· + 1) := by
  rw [show depthF tags (f + 1) t =
      (match t.parent_id with
       | none => some 0
       | some pid =>
         match tags.find? (fun p => p.id == pid) with
         | none => none
         | some pt => (depthF tags f pt).map (· + 1)) from rfl, h]
  show (match tags.find? (fun p => p.id == pid) with
    | none => (none : Option Nat)
    | some pt => (depthF tags f pt).map (· + 1)) = (depthF tags f pt).map (· + 1)
  rw [hf]

/-- A successful ancestor walk survives one more unit of fuel. -/
theorem depthF_succ_of_some (tags : List TagRow) :
    ∀ (f : Nat) (t : TagRow) (d : Nat), depthF tags f t = some d →
      depthF tags (f + 1) t = some d := by
  intro f
  induction f with
  | zero => intro t d h; simp [depthF] at h
  | succ f ih =>
      intro t d h
      cases hpar : t.parent_id with
      | none =>
          rw [depthF_succ_root tags f t hpar] at h
          rw [depthF_succ_root tags (f + 1) t hpar]
          exact h
      | some pid =>
          cases hfind : tags.find? fun p => p.id == pid with
          | none =>
              rw [depthF_succ_broken tags f t pid hpar hfind] at h
              exact absurd h (by simp)
          | some pt =>
              rw [depthF_succ_parent tags f t pid pt hpar hfind] at h
              rw [depthF_succ_parent tags (f + 1) t pid pt hpar hfind]
              rcases Option.map_eq_some'.mp h with ⟨d', hd', rfl⟩
              rw [ih pt d' hd']
              rfl

/-- Fuel monotonicity of the ancestor walk. -/
theorem depthF_mono (tags : List TagRow) {f f' : Nat} (h : f ≤ f') {t : TagRow} {d : Nat}
    (hd : depthF tags f t = some d) : depthF tags f' t = some d := by
  obtain ⟨k, rfl⟩ : ∃ k, f' = f + k := ⟨f' - f, by omega⟩
  clear h
  induction k with
  | zero => exact hd
  | succ k ih => exact depthF_succ_of_some tags (f + k) t d ih

/-- The walk's result is strictly below the fuel spent. -/
theorem depthF_lt (tags : List TagRow) :
    ∀ (f : Nat) (t : TagRow) (d : Nat), depthF tags f t = some d → d < f := by
  intro f
  induction f with
  | zero => intro t d h; simp [depthF] at h
  | succ f ih =>
      intro t d h
      cases hpar : t.parent_id with
      | none =>
          rw [depthF_succ_root tags f t hpar] at h
          have : d = 0 := by simpa using h.symm
          omega
      | some pid =>
          cases hfind : tags.find? fun p => p.id == pid with
          | none =>
              rw [depthF_succ_broken tags f t pid hpar hfind] at h
              exact absurd h (by simp)
          | some pt =>
              rw [depthF_succ_parent tags f t pid pt hpar hfind] at h
              rcases Option.map_eq_some'.mp h with ⟨d', hd', rfl⟩
              have := ih pt d' hd'
              omega

/-- Distinct fuels agree wherever both walks succeed. -/
theorem depthF_unique (tags : List TagRow) {f1 f2 : Nat} {t : TagRow} {d1 d2 : Nat}
    (h1 : depthF tags f1 t = some d1) (h2 : depthF tags f2 t = some d2) : d1 = d2 := by
  have e1 := depthF_mono tags (Nat.le_max_left f1 f2) h1
  have e2 := depthF_mono tags (Nat.le_max_right f1 f2) h2
  rw [e1] at e2
  exact Option.some.inj e2

/-- With unique ids, `find?` by id recovers the member itself. -/
theorem find?_id_unique :
    ∀ (tags : List TagRow), (tags.map fun t => t.id).Nodup → ∀ p ∈ tags,
      tags.find? (fun q => q.id == p.id) = some p := by
  intro tags
  induction tags with
  | nil => intro _ p hp; exact absurd hp (List.not_mem_nil p)
  | cons a rest ih =>
      intro hnd p hp
      rw [List.map_cons, List.nodup_cons] at hnd
      rcases List.mem_cons.mp hp with rfl | hp'
      · rw [List.find?_cons_of_pos _ (by simp)]
      · have hne : (a.id == p.id) = false := by
          have : a.id ≠ p.id := by
            intro he
            exact hnd.1 (he ▸ List.mem_map.mpr ⟨p, hp', rfl⟩)
          simpa using this
        rw [List.find?_cons_of_neg _ (by simp [hne])]
        exact ih hnd.2 p hp'

/-- Every row of CTE level `m` is a tag whose ancestor chain has length
exactly `m`. -/
theorem levelRows_depth (tags : List TagRow)
    (hids : (tags.map fun t => t.id).Nodup) :
    ∀ (m : Nat) (t : TagRow), t ∈ levelRows tags m →
      t ∈ tags ∧ depthF tags (m + 1) t = some m := by
  intro m
  induction m with
  | zero =>
      intro t ht
      rw [levelRows] at ht
      have hm := List.mem_filter.mp ht
      refine ⟨hm.1, ?_⟩
      have hpar : t.parent_id = none := Option.isNone_iff_eq_none.mp hm.2
      exact depthF_succ_root tags 0 t hpar
  | succ m ih =>
      intro t ht
      rw [levelRows] at ht
      have hm := List.mem_filter.mp ht
      rcases List.any_eq_true.mp hm.2 with ⟨p, hpLevel, hpar⟩
      have hpar' : t.parent_id = some p.id := by simpa using hpar
      rcases ih p hpLevel with ⟨hpMem, hpDepth⟩
      refine ⟨hm.1, ?_⟩
      rw [depthF_succ_parent tags (m + 1) t p.id p hpar' (find?_id_unique tags hids p hpMem)]
      rw [hpDepth]
      rfl

/-- Conversely, a tag whose ancestor chain has length `m` appears at CTE
level `m`. -/
theorem depth_levelRows (tags : List TagRow) :
    ∀ (f : Nat) (t : TagRow) (m : Nat), t ∈ tags → depthF tags f t = some m →
      t ∈ levelRows tags m := by
  intro f
  induction f with
  | zero => intro t m _ h; simp [depthF] at h
  | succ f ih =>
      intro t m hmem h
      cases hpar : t.parent_id with
      | none =>
          rw [depthF_succ_root tags f t hpar] at h
          have hm : m = 0 := by simpa using h.symm
          subst hm
          rw [levelRows, List.mem_filter]
          exact ⟨hmem, by simp [hpar]⟩
      | some pid =>
          cases hfind : tags.find? fun p => p.id == pid with
          | none =>
              rw [depthF_succ_broken tags f t pid hpar hfind] at h
              exact absurd h (by simp)
          | some pt =>
              rw [depthF_succ_parent tags f t pid pt hpar hfind] at h
              rcases Option.map_eq_some'.mp h with ⟨m', hm', rfl⟩
              have hptMem : pt ∈ tags := List.mem_of_find?_eq_some hfind
              have hptLevel := ih pt m' hptMem hm'
              rw [levelRows, List.mem_filter]
              refine ⟨hmem, List.any_eq_true.mpr ⟨pt, hptLevel, ?_⟩⟩
              have hpid : pt.id = pid := by simpa using List.find?_some hfind
              simp [hpar, hpid]

/-- On an acyclic table, the CTE recursion is exhausted once the level
reaches the table size. -/
theorem levelRows_eq_nil (tags : List TagRow)
    (hids : (tags.map fun t => t.id).Nodup) (hac : acyclicTags tags) :
    ∀ m : Nat, tags.length ≤ m → levelRows tags m = [] := by
  intro m hm
  rw [List.eq_nil_iff_forall_not_mem]
  intro t ht
  rcases levelRows_depth tags hids m t ht with ⟨hmem, hd⟩
  rcases Option.isSome_iff_exists.mp (hac t hmem) with ⟨d, hd2⟩
  have hlt : d < tags.length := depthF_lt tags tags.length t d hd2
  have heq : m = d := depthF_unique tags hd hd2
  omega

/-! ## C8: tag hierarchy — counting and the main theorem -/

/-- Summing an indicator of a single index over an initial range. -/
theorem sum_map_range_single (g : Nat → Nat) :
    ∀ n d : Nat, d < n → (∀ m, g m = if m = d then 1 else 0) →
      ((List.range n).map g).sum = 1 := by
  intro n
  induction n with
  | zero => intro d h _; omega
  | succ n ih =>
      intro d hd hg
      rw [List.range_succ, List.map_append, List.sum_append]
      by_cases hdn : d = n
      · subst hdn
        have hz : ((List.range d).map g).sum = 0 := by
          apply List.sum_eq_zero
          intro x hx
          rcases List.mem_map.mp hx with ⟨m, hm, rfl⟩
          have : m < d := List.mem_range.mp hm
          rw [hg m, if_neg (by omega)]
        rw [hz]
        simp [hg d]
      · have hd' : d < n := by omega
        have hnd : ¬ n = d := fun h => hdn h.symm
        rw [ih d hd' hg]
        simp [hg n, hnd]

/-- A tag of depth `d` occurs in level `m` once when `m = d` and never
otherwise. -/
theorem count_levelRows (tags : List TagRow)
    (hids : (tags.map fun t => t.id).Nodup)
    (t : TagRow) (hmem : t ∈ tags) (d : Nat)
    (hdep : depthF tags tags.length t = some d) :
    ∀ m : Nat, (levelRows tags m).count t = if m = d then 1 else 0 := by
  intro m
  by_cases hmd : m = d
  · subst hmd
    rw [if_pos rfl]
    have htm : t ∈ levelRows tags m := depth_levelRows tags tags.length t m hmem hdep
    have hcnt : tags.count t = 1 := List.count_eq_one_of_mem (hids.of_map) hmem
    cases m with
    | zero =>
        rw [levelRows] at htm ⊢
        exact (@List.count_filter TagRow _ _ (fun tg => tg.parent_id.isNone) t tags
          (List.mem_filter.mp htm).2).trans hcnt
    | succ k =>
        rw [levelRows] at htm ⊢
        exact (@List.count_filter TagRow _ _
          (fun tg => (levelRows tags k).any fun p => tg.parent_id == some p.id) t tags
          (List.mem_filter.mp htm).2).trans hcnt
  · rw [if_neg hmd, List.count_eq_zero]
    intro htm
    rcases levelRows_depth tags hids m t htm with ⟨_, hdf⟩
    exact hmd (depthF_unique tags hdf hdep)

/-- C8: on a tag table whose ids are unique and whose parent relation is
acyclic (every ancestor walk reaches a root within `tags.length` steps), the
recursive hierarchy read terminates — all levels from `tags.length` on are
empty — and its output lists every tag exactly once, annotated with a level
equal to its ancestor-chain length (level 0 exactly for the root tags), the
whole ordered by (level, name). -/
theorem c8_tag_hierarchy (tags : List TagRow)
    (hids : (tags.map fun t => t.id).Nodup)
    (hac : acyclicTags tags) :
    (∀ m : Nat, tags.length ≤ m → levelRows tags m = []) ∧
    (∀ t ∈ tags, ((tagHierarchy tags).map Prod.fst).count t = 1) ∧
    (∀ p ∈ tagHierarchy tags, tagDepth tags p.1 = some p.2 ∧
      (p.2 = 0 ↔ p.1.parent_id = none)) ∧
    List.Sorted levelNameLE (tagHierarchy tags) := by
  refine ⟨levelRows_eq_nil tags hids hac, ?_, ?_, ?_⟩
  · intro t hmem
    rcases Option.isSome_iff_exists.mp (hac t hmem) with ⟨d, hd⟩
    have hperm := (List.perm_insertionSort levelNameLE
      (hierarchyRows tags tags.length)).map Prod.fst
    unfold tagHierarchy
    rw [hperm.count_eq t]
    unfold hierarchyRows
    rw [List.map_flatMap, List.flatMap_def, List.count_flatten, List.map_map]
    apply sum_map_range_single _ tags.length d (depthF_lt tags tags.length t d hd)
    intro m
    simp only [Function.comp_apply]
    rw [List.map_map]
    rw [show (Prod.fst ∘ fun tg : TagRow => (tg, m)) = fun tg : TagRow => tg from rfl]
    rw [List.map_id']
    exact count_levelRows tags hids t hmem d hd m
  · intro p hp
    have hp' : p ∈ hierarchyRows tags tags.length :=
      (List.perm_insertionSort levelNameLE (hierarchyRows tags tags.length)).mem_iff.mp hp
    unfold hierarchyRows at hp'
    rcases List.mem_flatMap.mp hp' with ⟨m, hmrange, hpm⟩
    rcases List.mem_map.mp hpm with ⟨t, htm, rfl⟩
    rcases levelRows_depth tags hids m t htm with ⟨hmem, hdf⟩
    have hmlt : m < tags.length := List.mem_range.mp hmrange
    refine ⟨depthF_mono tags (by omega) hdf, ?_, ?_⟩
    · intro h0
      show t.parent_id = none
      rw [show ((t, m).2 : Nat) = m from rfl] at h0
      subst h0
      rw [levelRows] at htm
      exact Option.isNone_iff_eq_none.mp (List.mem_filter.mp htm).2
    · intro hpar
      show m = 0
      have h0 : depthF tags 1 t = some 0 := depthF_succ_root tags 0 t hpar
      exact depthF_unique tags hdf h0
  · exact List.sorted_insertionSort levelNameLE _

/-- Witness for C8 on the concrete four-tag table: the hierarchy is computed,
the child tag `x` appears exactly once, and level 2 holds the grandchild. -/
theorem c8_witness :
    ((tagHierarchy tagsC8).map Prod.fst).count { id := 2, name := "x", parent_id := some 1 }
      = 1 :=
  (c8_tag_hierarchy tagsC8 (by decide) (by decide)).2.1
    { id := 2, name := "x", parent_id := some 1 } (by decide)

end StickyNotes
